import Mathlib

/-!
Verification of the Monkey syntactic front end: a shallow embedding of the
lexer (`src/lexer/lexer.go`) and the Pratt parser (`src/parser/parser.go`,
with the earlier snapshot in `src/unnamed/part_000` embedded separately where
it differs), together with theorems about the claims of the specification.

The Go parser pulls tokens one at a time from the lexer.  Because the lexer
is a deterministic function of the input text and yields the end-of-input
token forever once the text is exhausted, the embedding first tokenizes the
whole input and then lets the parser state conjure `EOF` tokens when its
token list runs out; this is observationally identical to the pull model.

Recursive parse functions take an explicit `fuel : Nat` argument and return
`none` when the fuel runs out; a `some` result means the corresponding Go
code returns after finitely many steps.  Every fuel-consuming call site in
the Go source (recursive descent calls and loop iterations) decrements the
fuel by exactly one level per nesting step.
-/

namespace Monkey

/-- The token kinds of the `token` package (its Go source is not in the
repository; the set of kinds is taken from the uses in `parser.go` and
`lexer.go`).  In Go each kind is a distinct string constant; an inductive
with one constructor per kind is the faithful rendering. -/
inductive TokenType where
  | ILLEGAL | EOF
  | IDENT | INT | STRING
  | ASSIGN | PLUS | MINUS | BANG | ASTERISK | SLASH
  | LT | GT | EQ | NOT_EQ
  | COMMA | SEMICOLON | COLON
  | LPAREN | RPAREN | LBRACE | RBRACE | LBRACKET | RBRACKET
  | FUNCTION | LET | TRUE | FALSE | IF | ELSE | RETURN
deriving DecidableEq, Repr

/-- Go `token.Token`: a kind tag plus the literal text (Go fields `Type`,
`Literal`). -/
structure Token where
  typ : TokenType
  literal : String
deriving DecidableEq, Repr

/-- Modelled from the spec: `token.LookupIdent` of the missing `token`
package maps the keywords of the language (`fn`, `let`, `true`, `false`,
`if`, `else`, `return`, see spec sections 4.3 and 4.5) to their kinds and
every other word to `IDENT`. -/
def lookupIdent (s : String) : TokenType :=
  if s = "fn" then .FUNCTION
  else if s = "let" then .LET
  else if s = "true" then .TRUE
  else if s = "false" then .FALSE
  else if s = "if" then .IF
  else if s = "else" then .ELSE
  else if s = "return" then .RETURN
  else .IDENT

/-- Go `lexer.isLetter`. -/
def isLetter (c : Char) : Bool :=
  ('a' ≤ c && c ≤ 'z') || ('A' ≤ c && c ≤ 'Z') || c = '_'

/-- Go `lexer.isDigit`. -/
def isDigit (c : Char) : Bool :=
  '0' ≤ c && c ≤ '9'

/-- Go `lexer.isWhitespace`. -/
def isWhitespace (c : Char) : Bool :=
  c = ' ' || c = '\t' || c = '\n' || c = '\r'

/-- The double-quote character delimiting string literals (written via its
code point). -/
def quoteChar : Char := Char.ofNat 34

/-- Go `lexer.NextToken`, with the lexer state rendered as the list of not yet
consumed characters (the Go lexer's `position`-based cursor over the input
string is exactly that suffix).  Returns the token and the remaining
characters. -/
def lexNextToken (input : List Char) : Token × List Char :=
  let cs := input.dropWhile isWhitespace
  match cs with
  | [] => (⟨.EOF, ""⟩, [])
  | c :: rest =>
    if c = '=' then
      match rest with
      | '=' :: r2 => (⟨.EQ, "=="⟩, r2)
      | _ => (⟨.ASSIGN, "="⟩, rest)
    else if c = ';' then (⟨.SEMICOLON, ";"⟩, rest)
    else if c = ':' then (⟨.COLON, ":"⟩, rest)
    else if c = '(' then (⟨.LPAREN, "("⟩, rest)
    else if c = ')' then (⟨.RPAREN, ")"⟩, rest)
    else if c = ',' then (⟨.COMMA, ","⟩, rest)
    else if c = '+' then (⟨.PLUS, "+"⟩, rest)
    else if c = '-' then (⟨.MINUS, "-"⟩, rest)
    else if c = '!' then
      match rest with
      | '=' :: r2 => (⟨.NOT_EQ, "!="⟩, r2)
      | _ => (⟨.BANG, "!"⟩, rest)
    else if c = '/' then (⟨.SLASH, "/"⟩, rest)
    else if c = '*' then (⟨.ASTERISK, "*"⟩, rest)
    else if c = '<' then (⟨.LT, "<"⟩, rest)
    else if c = '>' then (⟨.GT, ">"⟩, rest)
    else if c = '{' then (⟨.LBRACE, "\x7b"⟩, rest)
    else if c = '}' then (⟨.RBRACE, "\x7d"⟩, rest)
    else if c = '[' then (⟨.LBRACKET, "["⟩, rest)
    else if c = ']' then (⟨.RBRACKET, "]"⟩, rest)
    else if c = quoteChar then
      -- `readString`: collect until the closing quote or end of input,
      -- then the final `readChar` steps past the closing quote if present.
      let content := rest.takeWhile (fun x => x ≠ quoteChar)
      let rest2 := rest.dropWhile (fun x => x ≠ quoteChar)
      (⟨.STRING, String.mk content⟩, match rest2 with | _ :: r => r | [] => [])
    else if isLetter c then
      -- `readIdentifier` followed by `LookupIdent`; Go returns before the
      -- trailing `readChar`, so nothing beyond the letters is consumed.
      let lit := String.mk ((c :: rest).takeWhile isLetter)
      (⟨lookupIdent lit, lit⟩, (c :: rest).dropWhile isLetter)
    else if isDigit c then
      let lit := String.mk ((c :: rest).takeWhile isDigit)
      (⟨.INT, lit⟩, (c :: rest).dropWhile isDigit)
    else (⟨.ILLEGAL, String.mk [c]⟩, rest)

/-- Repeated `lexer.NextToken` until the end-of-input token, which is
included as the final element.  Fueled; the Go loop plainly terminates
because every non-`EOF` token consumes at least one character. -/
def tokenize : Nat → List Char → Option (List Token)
  | 0, _ => none
  | fuel+1, cs =>
    match lexNextToken cs with
    | (tok, rest) =>
      if tok.typ = TokenType.EOF then some [tok]
      else
        match tokenize fuel rest with
        | none => none
        | some ts => some (tok :: ts)

/-- The token stream of an input string: `lexer.New` plus draining
`NextToken`.  The fuel `length + 1` is always sufficient since every
non-`EOF` token consumes at least one character. -/
def lexerTokens (s : String) : Option (List Token) :=
  tokenize (s.length + 1) s.toList

/-- Value of one hexadecimal digit character, used by the base dispatch of
the integer conversion below. -/
def hexDigitVal (c : Char) : Option Nat :=
  if '0' ≤ c && c ≤ '9' then some (c.toNat - 48)
  else if 'a' ≤ c && c ≤ 'f' then some (c.toNat - 87)
  else if 'A' ≤ c && c ≤ 'F' then some (c.toNat - 55)
  else none

/-- Accumulating digit loop of the integer conversion. -/
def parseDigitsGo (base : Nat) : Nat → List Char → Option Nat
  | acc, [] => some acc
  | acc, c :: cs =>
    match hexDigitVal c with
    | some d => if d < base then parseDigitsGo base (acc * base + d) cs else none
    | none => none

/-- A nonempty digit run in the given base. -/
def parseDigitsBase (base : Nat) (cs : List Char) : Option Nat :=
  match cs with
  | [] => none
  | _ => parseDigitsGo base 0 cs

/-- Models `strconv.ParseInt(s, 0, 64)` of the Go standard library (an
external dependency of `parseIntegerLiteral`): optional sign, base
auto-detection (`0x`/`0b`/`0o` prefixes, a legacy leading `0` meaning
octal, decimal otherwise) and the signed 64-bit range check; on any
violation Go returns an error, rendered here as `none`.  Digit-separator
underscores are not modelled: the lexer's `readNumber` only ever produces
runs of decimal digit characters. -/
def goParseInt (s : String) : Option Int :=
  match s.toList with
  | [] => none
  | cs0 =>
    let signDigits : Bool × List Char :=
      match cs0 with
      | '+' :: r => (false, r)
      | '-' :: r => (true, r)
      | r => (false, r)
    let baseDigits : Nat × List Char :=
      match signDigits.2 with
      | '0' :: x :: r =>
        if x = 'x' || x = 'X' then (16, r)
        else if x = 'b' || x = 'B' then (2, r)
        else if x = 'o' || x = 'O' then (8, r)
        else (8, x :: r)
      | r => (10, r)
    match parseDigitsBase baseDigits.1 baseDigits.2 with
    | none => none
    | some n =>
      if signDigits.1 then
        if n ≤ 2 ^ 63 then some (-(n : Int)) else none
      else
        if n ≤ 2 ^ 63 - 1 then some (n : Int) else none

mutual
/-- The expression variants of the `ast` package (struct definitions are in
the missing `ast` source; every field and its type is determined by the
construction sites in `parser.go`).  Go's nilable `ast.Expression`
interface values are rendered as `Option Expr`, nilable slices as
`Option (List _)`; identifiers occurring as names/parameters are
`Token × String` pairs (`ast.Identifier`'s two fields). -/
inductive Expr where
  | Identifier (token : Token) (value : String)
  | IntegerLiteral (token : Token) (value : Int)
  | Boolean (token : Token) (value : Bool)
  | StringLiteral (token : Token) (value : String)
  | PrefixExpression (token : Token) (operator : String) (right : Option Expr)
  | InfixExpression (token : Token) (operator : String) (left : Option Expr) (right : Option Expr)
  | IfExpression (token : Token) (condition : Option Expr) (consequence : BlockStmt)
      (alternative : Option BlockStmt)
  | FunctionLiteral (token : Token) (parameters : Option (List (Token × String)))
      (body : BlockStmt)
  | CallExpression (token : Token) (function : Option Expr)
      (arguments : Option (List (Option Expr)))
  | ArrayLiteral (token : Token) (elements : Option (List (Option Expr)))
  | IndexExpression (token : Token) (left : Option Expr) (index : Option Expr)
  | HashLiteral (token : Token) (pairs : List (Option Expr × Option Expr))

/-- The statement variants of the `ast` package.  `parseHashLiteral` keys
its Go map by `ast.Expression` interface values; since every key is a
freshly allocated node, insertion never overwrites, so the map's contents
are exactly the insertion-ordered pair list stored in `HashLiteral`. -/
inductive Stmt where
  | LetStatement (token : Token) (name : Token × String) (value : Option Expr)
  | ReturnStatement (token : Token) (returnValue : Option Expr)
  | ExpressionStatement (token : Token) (expression : Option Expr)

/-- Go `ast.BlockStatement`; elements are nilable statement interface values. -/
inductive BlockStmt where
  | mk (token : Token) (statements : List (Option Stmt))
end

/-- Go `ast.Program`. -/
structure Program where
  statements : List (Option Stmt)

/-- The statement list of a block. -/
def BlockStmt.statements : BlockStmt → List (Option Stmt)
  | .mk _ s => s

/-- The three diagnostic shapes of `parser.go`, one per `fmt.Sprintf` site
(`peekError`, `noPrefixParseFnError`, `parseIntegerLiteral`).  The exact
message strings interpolate the token kinds' string constants from the
missing `token` package, so diagnostics are rendered structurally as kind
plus payload. -/
inductive Diag where
  | expectedNextToken (expected : TokenType) (got : TokenType)
  | noPrefixParseFn (t : TokenType)
  | couldNotParseInteger (literal : String)
deriving DecidableEq, Repr

/-- Go `parser.Parser`: the cursor (`currToken`, `peekToken`), the not yet
pulled suffix of the token stream (standing for the `lexer.Lexer` field), and
the accumulated `errors`. -/
structure Parser where
  currToken : Token
  peekToken : Token
  rest : List Token
  errors : List Diag
deriving DecidableEq, Repr

/-- Go `Parser.nextToken`: shift peek into current and pull the next token;
an exhausted lexer yields the end-of-input token forever. -/
def Parser.nextToken (p : Parser) : Parser :=
  match p.rest with
  | [] => { p with currToken := p.peekToken, peekToken := ⟨.EOF, ""⟩ }
  | t :: ts => { p with currToken := p.peekToken, peekToken := t, rest := ts }

/-- Go `currTokenIs`. -/
def currTokenIs (p : Parser) (t : TokenType) : Bool := p.currToken.typ = t

/-- Go `peekTokenIs`. -/
def peekTokenIs (p : Parser) (t : TokenType) : Bool := p.peekToken.typ = t

/-- Go `peekError`: append an unexpected-token diagnostic naming the expected
kind and the actual peek kind. -/
def peekError (t : TokenType) (p : Parser) : Parser :=
  { p with errors := p.errors ++ [Diag.expectedNextToken t p.peekToken.typ] }

/-- Go `expectPeek`: advance on a match, record a diagnostic and stay put
otherwise. -/
def expectPeek (t : TokenType) (p : Parser) : Bool × Parser :=
  if peekTokenIs p t then (true, p.nextToken)
  else (false, peekError t p)

/-- Precedence levels (the anonymous `iota` block): `LOWEST`. -/
def LOWEST : Nat := 1
/-- Precedence level `EQUALS`. -/
def EQUALS : Nat := 2
/-- Precedence level `LESSGREATER`. -/
def LESSGREATER : Nat := 3
/-- Precedence level `SUM`. -/
def SUM : Nat := 4
/-- Precedence level `PRODUCT`. -/
def PRODUCT : Nat := 5
/-- Precedence level `PREFIX`. -/
def PREFIX : Nat := 6
/-- Precedence level `CALL`. -/
def CALL : Nat := 7
/-- Precedence level `INDEX`. -/
def INDEX : Nat := 8

/-- The `precedences` table; kinds missing from the map have no entry. -/
def precedences (t : TokenType) : Option Nat :=
  match t with
  | .EQ => some EQUALS
  | .NOT_EQ => some EQUALS
  | .LT => some LESSGREATER
  | .GT => some LESSGREATER
  | .PLUS => some SUM
  | .MINUS => some SUM
  | .SLASH => some PRODUCT
  | .ASTERISK => some PRODUCT
  | .LPAREN => some CALL
  | .LBRACKET => some INDEX
  | _ => none

/-- Go `peekPrecedence`: table lookup defaulting to `LOWEST`. -/
def peekPrecedence (p : Parser) : Nat :=
  (precedences p.peekToken.typ).getD LOWEST

/-- Go `currPrecedence`. -/
def currPrecedence (p : Parser) : Nat :=
  (precedences p.currToken.typ).getD LOWEST

/-- Go `parseIdentifier` (fuel-free: no recursion). -/
def parseIdentifier (p : Parser) : Option Expr × Parser :=
  (some (Expr.Identifier p.currToken p.currToken.literal), p)

/-- Go `parseIntegerLiteral`: on conversion failure record a diagnostic and
yield the absent node. -/
def parseIntegerLiteral (p : Parser) : Option Expr × Parser :=
  match goParseInt p.currToken.literal with
  | some v => (some (Expr.IntegerLiteral p.currToken v), p)
  | none =>
    (none, { p with errors := p.errors ++ [Diag.couldNotParseInteger p.currToken.literal] })

/-- Go `parseBoolean`. -/
def parseBoolean (p : Parser) : Option Expr × Parser :=
  (some (Expr.Boolean p.currToken (currTokenIs p .TRUE)), p)

/-- Go `parseStringLiteral`. -/
def parseStringLiteral (p : Parser) : Option Expr × Parser :=
  (some (Expr.StringLiteral p.currToken p.currToken.literal), p)

mutual

/-- Go `ParseProgram`: the top-level statement loop starting from an empty
statement list. -/
def parseProgram : Nat → Parser → Option (Program × Parser)
  | 0, _ => none
  | fuel+1, p =>
    match parseProgramLoop fuel [] p with
    | none => none
    | some (stmts, p1) => some (⟨stmts⟩, p1)

/-- The `for !parser.currTokenIs(token.EOF)` loop of `ParseProgram`:
parse one statement, append it when non-absent, force one advance. -/
def parseProgramLoop : Nat → List (Option Stmt) → Parser → Option (List (Option Stmt) × Parser)
  | 0, _, _ => none
  | fuel+1, acc, p =>
    if currTokenIs p .EOF then some (acc, p)
    else
      match parseStatement fuel p with
      | none => none
      | some (s, p1) =>
        let acc2 := match s with | none => acc | some _ => acc ++ [s]
        parseProgramLoop fuel acc2 p1.nextToken

/-- Go `parseBlockStatement`: advance past the brace, then the statement loop
until a closing brace or end of input. -/
def parseBlockStatement : Nat → Parser → Option (BlockStmt × Parser)
  | 0, _ => none
  | fuel+1, p =>
    let tok := p.currToken
    match parseBlockLoop fuel [] p.nextToken with
    | none => none
    | some (stmts, p1) => some (BlockStmt.mk tok stmts, p1)

/-- The `for !currTokenIs(RBRACE) && !currTokenIs(EOF)` loop of
`parseBlockStatement`. -/
def parseBlockLoop : Nat → List (Option Stmt) → Parser → Option (List (Option Stmt) × Parser)
  | 0, _, _ => none
  | fuel+1, acc, p =>
    if ¬ (currTokenIs p .RBRACE = true) ∧ ¬ (currTokenIs p .EOF = true) then
      match parseStatement fuel p with
      | none => none
      | some (s, p1) =>
        let acc2 := match s with | none => acc | some _ => acc ++ [s]
        parseBlockLoop fuel acc2 p1.nextToken
    else some (acc, p)

/-- Go `parseStatement`: dispatch on the current token kind. -/
def parseStatement : Nat → Parser → Option (Option Stmt × Parser)
  | 0, _ => none
  | fuel+1, p =>
    match p.currToken.typ with
    | .LET => parseLetStatement fuel p
    | .RETURN => parseReturnStatement fuel p
    | _ => parseExpressionStatement fuel p

/-- Go `parseLetStatement`. -/
def parseLetStatement : Nat → Parser → Option (Option Stmt × Parser)
  | 0, _ => none
  | fuel+1, p =>
    let tok := p.currToken
    match expectPeek .IDENT p with
    | (false, p1) => some (none, p1)
    | (true, p1) =>
      let name := (p1.currToken, p1.currToken.literal)
      match expectPeek .ASSIGN p1 with
      | (false, p2) => some (none, p2)
      | (true, p2) =>
        match parseExpression fuel LOWEST p2.nextToken with
        | none => none
        | some (value, p3) =>
          match skipSemicolons fuel p3 with
          | none => none
          | some p4 => some (some (Stmt.LetStatement tok name value), p4)

/-- Go `parseReturnStatement`. -/
def parseReturnStatement : Nat → Parser → Option (Option Stmt × Parser)
  | 0, _ => none
  | fuel+1, p =>
    let tok := p.currToken
    match parseExpression fuel LOWEST p.nextToken with
    | none => none
    | some (value, p1) =>
      match skipSemicolons fuel p1 with
      | none => none
      | some p2 => some (some (Stmt.ReturnStatement tok value), p2)

/-- The `for parser.peekTokenIs(token.SEMICOLON)` loops that end
`parseLetStatement` and `parseReturnStatement`. -/
def skipSemicolons : Nat → Parser → Option Parser
  | 0, _ => none
  | fuel+1, p =>
    if peekTokenIs p .SEMICOLON then skipSemicolons fuel p.nextToken
    else some p

/-- Go `parseExpressionStatement`: one expression at `LOWEST`, then an
optional trailing semicolon. -/
def parseExpressionStatement : Nat → Parser → Option (Option Stmt × Parser)
  | 0, _ => none
  | fuel+1, p =>
    let tok := p.currToken
    match parseExpression fuel LOWEST p with
    | none => none
    | some (e, p1) =>
      let p2 := if peekTokenIs p1 .SEMICOLON then p1.nextToken else p1
      some (some (Stmt.ExpressionStatement tok e), p2)

/-- Go `parseExpression`: prefix-handler dispatch (the `prefixParseFns`
registrations of `New`, one match arm per registered kind), then the
precedence-climbing loop.  A kind with no registered handler records a
diagnostic and yields the absent node without entering the loop. -/
def parseExpression : Nat → Nat → Parser → Option (Option Expr × Parser)
  | 0, _, _ => none
  | fuel+1, precedence, p =>
    match p.currToken.typ with
    | .IDENT =>
      match parseIdentifier p with
      | (left, p1) => parseExpressionLoop fuel precedence left p1
    | .INT =>
      match parseIntegerLiteral p with
      | (left, p1) => parseExpressionLoop fuel precedence left p1
    | .BANG =>
      match parsePrefixExpression fuel p with
      | none => none
      | some (left, p1) => parseExpressionLoop fuel precedence left p1
    | .MINUS =>
      match parsePrefixExpression fuel p with
      | none => none
      | some (left, p1) => parseExpressionLoop fuel precedence left p1
    | .TRUE =>
      match parseBoolean p with
      | (left, p1) => parseExpressionLoop fuel precedence left p1
    | .FALSE =>
      match parseBoolean p with
      | (left, p1) => parseExpressionLoop fuel precedence left p1
    | .LPAREN =>
      match parseGroupedExpression fuel p with
      | none => none
      | some (left, p1) => parseExpressionLoop fuel precedence left p1
    | .IF =>
      match parseIfExpression fuel p with
      | none => none
      | some (left, p1) => parseExpressionLoop fuel precedence left p1
    | .FUNCTION =>
      match parseFunctionLiteral fuel p with
      | none => none
      | some (left, p1) => parseExpressionLoop fuel precedence left p1
    | .STRING =>
      match parseStringLiteral p with
      | (left, p1) => parseExpressionLoop fuel precedence left p1
    | .LBRACKET =>
      match parseArrayLiteral fuel p with
      | none => none
      | some (left, p1) => parseExpressionLoop fuel precedence left p1
    | .LBRACE =>
      match parseHashLiteral fuel p with
      | none => none
      | some (left, p1) => parseExpressionLoop fuel precedence left p1
    | t => some (none, { p with errors := p.errors ++ [Diag.noPrefixParseFn t] })

/-- The `for !peekTokenIs(SEMICOLON) && precedence < peekPrecedence()`
loop of `parseExpression`, with the `infixParseFns` dispatch of `New` on
the peek kind; an unregistered kind simply returns the accumulated left
node. -/
def parseExpressionLoop : Nat → Nat → Option Expr → Parser → Option (Option Expr × Parser)
  | 0, _, _, _ => none
  | fuel+1, precedence, left, p =>
    if ¬ (peekTokenIs p .SEMICOLON = true) ∧ precedence < peekPrecedence p then
      match p.peekToken.typ with
      | .PLUS | .MINUS | .SLASH | .ASTERISK | .EQ | .NOT_EQ | .LT | .GT =>
        match parseInfixExpression fuel left p.nextToken with
        | none => none
        | some (left2, p2) => parseExpressionLoop fuel precedence left2 p2
      | .LPAREN =>
        match parseCallExpression fuel left p.nextToken with
        | none => none
        | some (left2, p2) => parseExpressionLoop fuel precedence left2 p2
      | .LBRACKET =>
        match parseIndexExpression fuel left p.nextToken with
        | none => none
        | some (left2, p2) => parseExpressionLoop fuel precedence left2 p2
      | _ => some (left, p)
    else some (left, p)

/-- Go `parsePrefixExpression`: capture the operator, advance, parse the
operand at `PREFIX` precedence; the node is returned even when the operand
parse yields absent. -/
def parsePrefixExpression : Nat → Parser → Option (Option Expr × Parser)
  | 0, _ => none
  | fuel+1, p =>
    let tok := p.currToken
    match parseExpression fuel PREFIX p.nextToken with
    | none => none
    | some (right, p1) =>
      some (some (Expr.PrefixExpression tok tok.literal right), p1)

/-- Go `parseInfixExpression`: capture the operator and its precedence,
advance, parse the right operand at that same precedence. -/
def parseInfixExpression : Nat → Option Expr → Parser → Option (Option Expr × Parser)
  | 0, _, _ => none
  | fuel+1, left, p =>
    let tok := p.currToken
    let precedence := currPrecedence p
    match parseExpression fuel precedence p.nextToken with
    | none => none
    | some (right, p1) =>
      some (some (Expr.InfixExpression tok tok.literal left right), p1)

/-- Go `parseGroupedExpression`: advance past the parenthesis, parse at
`LOWEST`, require the closing parenthesis. -/
def parseGroupedExpression : Nat → Parser → Option (Option Expr × Parser)
  | 0, _ => none
  | fuel+1, p =>
    match parseExpression fuel LOWEST p.nextToken with
    | none => none
    | some (e, p1) =>
      match expectPeek .RPAREN p1 with
      | (false, p2) => some (none, p2)
      | (true, p2) => some (e, p2)

/-- Go `parseIfExpression`. -/
def parseIfExpression : Nat → Parser → Option (Option Expr × Parser)
  | 0, _ => none
  | fuel+1, p =>
    let tok := p.currToken
    match expectPeek .LPAREN p with
    | (false, p1) => some (none, p1)
    | (true, p1) =>
      match parseExpression fuel LOWEST p1.nextToken with
      | none => none
      | some (cond, p2) =>
        match expectPeek .RPAREN p2 with
        | (false, p3) => some (none, p3)
        | (true, p3) =>
          match expectPeek .LBRACE p3 with
          | (false, p4) => some (none, p4)
          | (true, p4) =>
            match parseBlockStatement fuel p4 with
            | none => none
            | some (cons, p5) =>
              if peekTokenIs p5 .ELSE then
                match expectPeek .LBRACE p5.nextToken with
                | (false, p6) => some (none, p6)
                | (true, p6) =>
                  match parseBlockStatement fuel p6 with
                  | none => none
                  | some (alt, p7) =>
                    some (some (Expr.IfExpression tok cond cons (some alt)), p7)
              else some (some (Expr.IfExpression tok cond cons none), p5)

/-- Go `parseFunctionLiteral`. -/
def parseFunctionLiteral : Nat → Parser → Option (Option Expr × Parser)
  | 0, _ => none
  | fuel+1, p =>
    let tok := p.currToken
    match expectPeek .LPAREN p with
    | (false, p1) => some (none, p1)
    | (true, p1) =>
      match parseFunctionParameters fuel p1 with
      | none => none
      | some (params, p2) =>
        match expectPeek .LBRACE p2 with
        | (false, p3) => some (none, p3)
        | (true, p3) =>
          match parseBlockStatement fuel p3 with
          | none => none
          | some (body, p4) =>
            some (some (Expr.FunctionLiteral tok params body), p4)

/-- Go `parseFunctionParameters`: empty list on an immediate closing
parenthesis; otherwise one identifier, the comma loop, and a required
closing parenthesis (failure yields the nil slice). -/
def parseFunctionParameters : Nat → Parser → Option (Option (List (Token × String)) × Parser)
  | 0, _ => none
  | fuel+1, p =>
    if peekTokenIs p .RPAREN then some (some [], p.nextToken)
    else
      let p1 := p.nextToken
      match parseFunctionParametersLoop fuel [(p1.currToken, p1.currToken.literal)] p1 with
      | none => none
      | some (ids, p2) =>
        match expectPeek .RPAREN p2 with
        | (false, p3) => some (none, p3)
        | (true, p3) => some (some ids, p3)

/-- The `for peekTokenIs(COMMA)` loop of `parseFunctionParameters`. -/
def parseFunctionParametersLoop :
    Nat → List (Token × String) → Parser → Option (List (Token × String) × Parser)
  | 0, _, _ => none
  | fuel+1, acc, p =>
    if peekTokenIs p .COMMA then
      let p1 := p.nextToken.nextToken
      parseFunctionParametersLoop fuel (acc ++ [(p1.currToken, p1.currToken.literal)]) p1
    else some (acc, p)

/-- Go `parseCallExpression`: the infix handler registered for `(`. -/
def parseCallExpression : Nat → Option Expr → Parser → Option (Option Expr × Parser)
  | 0, _, _ => none
  | fuel+1, function, p =>
    let tok := p.currToken
    match parseExpressionList fuel .RPAREN p with
    | none => none
    | some (args, p1) =>
      some (some (Expr.CallExpression tok function args), p1)

/-- Go `parseIndexExpression`: the infix handler registered for `[`. -/
def parseIndexExpression : Nat → Option Expr → Parser → Option (Option Expr × Parser)
  | 0, _, _ => none
  | fuel+1, left, p =>
    let tok := p.currToken
    match parseExpression fuel LOWEST p.nextToken with
    | none => none
    | some (idx, p1) =>
      match expectPeek .RBRACKET p1 with
      | (false, p2) => some (none, p2)
      | (true, p2) => some (some (Expr.IndexExpression tok left idx), p2)

/-- Go `parseExpressionList`: the shared comma-separated list machinery with a
caller-supplied terminator; failure of the final `expectPeek` yields the
nil slice. -/
def parseExpressionList :
    Nat → TokenType → Parser → Option (Option (List (Option Expr)) × Parser)
  | 0, _, _ => none
  | fuel+1, endT, p =>
    if peekTokenIs p endT then some (some [], p.nextToken)
    else
      match parseExpression fuel LOWEST p.nextToken with
      | none => none
      | some (e, p1) =>
        match parseExpressionListLoop fuel [e] p1 with
        | none => none
        | some (l, p2) =>
          match expectPeek endT p2 with
          | (false, p3) => some (none, p3)
          | (true, p3) => some (some l, p3)

/-- The `for peekTokenIs(COMMA)` loop of `parseExpressionList`. -/
def parseExpressionListLoop :
    Nat → List (Option Expr) → Parser → Option (List (Option Expr) × Parser)
  | 0, _, _ => none
  | fuel+1, acc, p =>
    if peekTokenIs p .COMMA then
      match parseExpression fuel LOWEST p.nextToken.nextToken with
      | none => none
      | some (e, p1) => parseExpressionListLoop fuel (acc ++ [e]) p1
    else some (acc, p)

/-- Go `parseArrayLiteral`. -/
def parseArrayLiteral : Nat → Parser → Option (Option Expr × Parser)
  | 0, _ => none
  | fuel+1, p =>
    let tok := p.currToken
    match parseExpressionList fuel .RBRACKET p with
    | none => none
    | some (elems, p1) =>
      some (some (Expr.ArrayLiteral tok elems), p1)

/-- Go `parseHashLiteral`: the pair loop followed by the required closing
brace. -/
def parseHashLiteral : Nat → Parser → Option (Option Expr × Parser)
  | 0, _ => none
  | fuel+1, p =>
    let tok := p.currToken
    match parseHashLiteralLoop fuel [] p with
    | none => none
    | some (none, p1) => some (none, p1)
    | some (some pairs, p1) =>
      match expectPeek .RBRACE p1 with
      | (false, p2) => some (none, p2)
      | (true, p2) => some (some (Expr.HashLiteral tok pairs), p2)

/-- The `for !peekTokenIs(RBRACE)` loop of `parseHashLiteral`: parse a key,
require the colon, parse a value, then require a comma unless the closing
brace is next (Go's short-circuit `&&`); an inner failure aborts the whole
hash literal with the absent result. -/
def parseHashLiteralLoop :
    Nat → List (Option Expr × Option Expr) → Parser →
    Option (Option (List (Option Expr × Option Expr)) × Parser)
  | 0, _, _ => none
  | fuel+1, acc, p =>
    if ¬ (peekTokenIs p .RBRACE = true) then
      match parseExpression fuel LOWEST p.nextToken with
      | none => none
      | some (k, p1) =>
        match expectPeek .COLON p1 with
        | (false, p2) => some (none, p2)
        | (true, p2) =>
          match parseExpression fuel LOWEST p2.nextToken with
          | none => none
          | some (v, p3) =>
            let acc2 := acc ++ [(k, v)]
            if peekTokenIs p3 .RBRACE then parseHashLiteralLoop fuel acc2 p3
            else
              match expectPeek .COMMA p3 with
              | (false, p4) => some (none, p4)
              | (true, p4) => parseHashLiteralLoop fuel acc2 p4
    else some (some acc, p)

end

/-- Go `parser.New`: prime the cursor by advancing twice from the zero-valued
token pair (the zero value is never observable afterwards). -/
def newParser (toks : List Token) : Parser :=
  (Parser.mk ⟨.EOF, ""⟩ ⟨.EOF, ""⟩ toks []).nextToken.nextToken

/-- The whole pipeline on a source string: `lexer.New`, `parser.New`,
`ParseProgram`. -/
def parseInput (fuel : Nat) (s : String) : Option (Program × Parser) :=
  match lexerTokens s with
  | none => none
  | some ts => parseProgram fuel (newParser ts)

/-- Modelled from the spec: the canonical string rendering of expression
nodes (the `String()` methods of the missing `ast` package).  Section 8
fixes the format: infix nodes render as `(left op right)` with spaces and
prefix nodes as `(opoperand)` without, literals and identifiers render as
their text.  Renderings of the remaining variants follow the same
parenthesized style; a hash literal displays its pairs in stored
(insertion) order here — see `renderHashPairsWithOrder` for the
order-explicit display.  An absent slot renders as the empty string.
Fueled for the recursion; every actual tree is finite, and all uses below
are on concrete trees with ample fuel. -/
def renderExpr : Nat → Option Expr → String
  | 0, _ => ""
  | _, none => ""
  | fuel+1, some e =>
    match e with
    | .Identifier _ v => v
    | .IntegerLiteral t _ => t.literal
    | .Boolean t _ => t.literal
    | .StringLiteral _ v => v
    | .PrefixExpression _ op r => "(" ++ op ++ renderExpr fuel r ++ ")"
    | .InfixExpression _ op l r =>
      "(" ++ renderExpr fuel l ++ " " ++ op ++ " " ++ renderExpr fuel r ++ ")"
    | .IfExpression _ c _ _ => "if" ++ renderExpr fuel c
    | .FunctionLiteral t ps _ =>
      t.literal ++ "(" ++ String.intercalate (", ") ((ps.getD []).map (fun i => i.2)) ++ ")"
    | .CallExpression _ f args =>
      renderExpr fuel f ++ "(" ++
        String.intercalate (", ") ((args.getD []).map (renderExpr fuel)) ++ ")"
    | .ArrayLiteral _ elems =>
      "[" ++ String.intercalate (", ") ((elems.getD []).map (renderExpr fuel)) ++ "]"
    | .IndexExpression _ l i => "(" ++ renderExpr fuel l ++ "[" ++ renderExpr fuel i ++ "])"
    | .HashLiteral _ pairs =>
      "\x7b" ++
        String.intercalate (", ")
          (pairs.map (fun kv => renderExpr fuel kv.1 ++ ":" ++ renderExpr fuel kv.2)) ++
        "\x7d"

/-- Modelled from the spec: the display of a hash literal iterates the
pairs of the reference's unordered map (section 9: "pairs are naturally
unordered in the reference data structure"), so the enumeration order is
not fixed by the data; it is made explicit here as a list of indices into
the stored pairs.  Any permutation of `[0, ..., n-1]` is a possible
iteration order of the map. -/
def renderHashPairsWithOrder (fuel : Nat) (order : List Nat)
    (pairs : List (Option Expr × Option Expr)) : String :=
  "\x7b" ++
    String.intercalate (", ")
      (order.map (fun i =>
        match pairs.get? i with
        | some kv => renderExpr fuel kv.1 ++ ":" ++ renderExpr fuel kv.2
        | none => "")) ++
  "\x7d"

/-- The token-skipping loop of the earlier parser snapshot's
`parseLetStatement` (`src/unnamed/part_000`, lines 194–196):
`for !parser.currTokenIs(token.SEMICOLON) { parser.nextToken() }`. -/
def skipToSemicolonV0 : Nat → Parser → Option Parser
  | 0, _ => none
  | fuel+1, p =>
    if currTokenIs p .SEMICOLON then some p
    else skipToSemicolonV0 fuel p.nextToken

/-- Go `parseLetStatement` of the earlier snapshot `src/unnamed/part_000`:
identical `expectPeek` structure, but the value expression is skipped by
scanning for a semicolon (its `LetStatement` leaves the value slot unset,
rendered as `none`). -/
def parseLetStatementV0 : Nat → Parser → Option (Option Stmt × Parser)
  | 0, _ => none
  | fuel+1, p =>
    let tok := p.currToken
    match expectPeek .IDENT p with
    | (false, p1) => some (none, p1)
    | (true, p1) =>
      let name := (p1.currToken, p1.currToken.literal)
      match expectPeek .ASSIGN p1 with
      | (false, p2) => some (none, p2)
      | (true, p2) =>
        match skipToSemicolonV0 fuel p2 with
        | none => none
        | some p3 => some (some (Stmt.LetStatement tok name none), p3)

/-- No semicolon anywhere in the parser's remaining token supply: neither
in the cursor nor in the unread suffix (the exhausted lexer then only ever
yields `EOF`). -/
def noSemicolonAhead (p : Parser) : Prop :=
  p.currToken.typ ≠ .SEMICOLON ∧ p.peekToken.typ ≠ .SEMICOLON ∧
    ∀ t ∈ p.rest, t.typ ≠ .SEMICOLON

instance (p : Parser) : Decidable (noSemicolonAhead p) := by
  unfold noSemicolonAhead; infer_instance

/-- The expected parse tree of `a + b * c`. -/
def sumProductTree : Expr :=
  .InfixExpression ⟨.PLUS, "+"⟩ "+"
    (some (.Identifier ⟨.IDENT, "a"⟩ "a"))
    (some (.InfixExpression ⟨.ASTERISK, "*"⟩ "*"
      (some (.Identifier ⟨.IDENT, "b"⟩ "b"))
      (some (.Identifier ⟨.IDENT, "c"⟩ "c"))))

/-- The expected parse tree of `a - b - c`. -/
def leftFoldTree : Expr :=
  .InfixExpression ⟨.MINUS, "-"⟩ "-"
    (some (.InfixExpression ⟨.MINUS, "-"⟩ "-"
      (some (.Identifier ⟨.IDENT, "a"⟩ "a"))
      (some (.Identifier ⟨.IDENT, "b"⟩ "b"))))
    (some (.Identifier ⟨.IDENT, "c"⟩ "c"))

/-- The stored pair list of the parsed hash literal
`{"one": 1, "two": 2}`, in source (insertion) order. -/
def hashPairsOneTwo : List (Option Expr × Option Expr) :=
  [(some (.StringLiteral ⟨.STRING, "one"⟩ "one"),
    some (.IntegerLiteral ⟨.INT, "1"⟩ 1)),
   (some (.StringLiteral ⟨.STRING, "two"⟩ "two"),
    some (.IntegerLiteral ⟨.INT, "2"⟩ 2))]

/-- A parser state that has consumed its whole token stream. -/
def drainedParser (errs : List Diag) : Parser :=
  ⟨⟨.EOF, ""⟩, ⟨.EOF, ""⟩, [], errs⟩

mutual
/-- An attempted slot somewhere inside this expression is absent: an
expression slot is `none`, a parameter/argument/element slice is the nil
slice, or the failure sits deeper in a sub-node.  A missing `else`
alternative is not a failed slot (no parse was attempted for it), so it
does not count. -/
def hasAbsentExpr : Expr → Bool
  | .Identifier .. => false
  | .IntegerLiteral .. => false
  | .Boolean .. => false
  | .StringLiteral .. => false
  | .PrefixExpression _ _ r => hasAbsentOpt r
  | .InfixExpression _ _ l r => hasAbsentOpt l || hasAbsentOpt r
  | .IfExpression _ c cons alt =>
    hasAbsentOpt c || hasAbsentBlock cons ||
      (match alt with | some b => hasAbsentBlock b | none => false)
  | .FunctionLiteral _ ps body => ps.isNone || hasAbsentBlock body
  | .CallExpression _ f args => hasAbsentOpt f || hasAbsentOptList args
  | .ArrayLiteral _ elems => hasAbsentOptList elems
  | .IndexExpression _ l i => hasAbsentOpt l || hasAbsentOpt i
  | .HashLiteral _ pairs => hasAbsentPairs pairs

/-- Absent node, or a present node with an absent attempted slot inside. -/
def hasAbsentOpt : Option Expr → Bool
  | none => true
  | some e => hasAbsentExpr e

/-- Nil expression slice, or a present slice with an absent entry. -/
def hasAbsentOptList : Option (List (Option Expr)) → Bool
  | none => true
  | some l => hasAbsentExprList l

/-- Some entry of the expression list is absent or contains an absence. -/
def hasAbsentExprList : List (Option Expr) → Bool
  | [] => false
  | e :: es => hasAbsentOpt e || hasAbsentExprList es

/-- Some key or value of the pair list is absent or contains an absence. -/
def hasAbsentPairs : List (Option Expr × Option Expr) → Bool
  | [] => false
  | (k, v) :: ps => hasAbsentOpt k || hasAbsentOpt v || hasAbsentPairs ps

/-- An attempted slot somewhere inside this statement is absent. -/
def hasAbsentStmt : Stmt → Bool
  | .LetStatement _ _ v => hasAbsentOpt v
  | .ReturnStatement _ v => hasAbsentOpt v
  | .ExpressionStatement _ e => hasAbsentOpt e

/-- Absent statement, or a present one with an absent slot inside. -/
def hasAbsentStmtOpt : Option Stmt → Bool
  | none => true
  | some s => hasAbsentStmt s

/-- Some element of the statement list is absent or contains an absence. -/
def hasAbsentStmtList : List (Option Stmt) → Bool
  | [] => false
  | s :: ss => hasAbsentStmtOpt s || hasAbsentStmtList ss

/-- An attempted slot somewhere inside this block is absent. -/
def hasAbsentBlock : BlockStmt → Bool
  | .mk _ ss => hasAbsentStmtList ss
end

theorem nextToken_errors (p : Parser) : p.nextToken.errors = p.errors := by
  unfold Parser.nextToken
  split <;> rfl

theorem nextToken_rest_len (p : Parser) : p.nextToken.rest.length ≤ p.rest.length := by
  unfold Parser.nextToken
  split <;> simp_all

theorem expectPeek_true_state {t : TokenType} {p q : Parser}
    (h : expectPeek t p = (true, q)) : q = p.nextToken ∧ q.errors = p.errors := by
  unfold expectPeek at h
  split at h
  · cases h
    exact ⟨rfl, nextToken_errors p⟩
  · cases h

/-- C5: parsing `let x = 5;` produces a program of exactly one
`LetStatement` whose name identifier is `x` and whose value is
`IntegerLiteral 5`, with an empty diagnostic list. -/
theorem letStatement_wellFormed :
    parseInput 99 ("let x = 5;") =
      some (⟨[some (Stmt.LetStatement ⟨.LET, "let"⟩ (⟨.IDENT, "x"⟩, "x")
                (some (Expr.IntegerLiteral ⟨.INT, "5"⟩ 5)))]⟩,
            drainedParser []) := rfl

/-- C6: parsing `a + b * c` folds the multiplication tighter than the
addition, yielding `InfixExpression("+", a, InfixExpression("*", b, c))`,
whose canonical rendering is `(a + (b * c))`. -/
theorem precedence_folding :
    parseInput 99 ("a + b * c") =
      some (⟨[some (Stmt.ExpressionStatement ⟨.IDENT, "a"⟩ (some sumProductTree))]⟩,
            drainedParser []) ∧
    renderExpr 99 (some sumProductTree) = "(a + (b * c))" := ⟨rfl, rfl⟩

/-- C7: parsing `a - b - c` folds left for equal-precedence chains,
yielding `InfixExpression("-", InfixExpression("-", a, b), c)`, whose
canonical rendering is `((a - b) - c)`. -/
theorem left_associativity :
    parseInput 99 ("a - b - c") =
      some (⟨[some (Stmt.ExpressionStatement ⟨.IDENT, "a"⟩ (some leftFoldTree))]⟩,
            drainedParser []) ∧
    renderExpr 99 (some leftFoldTree) = "((a - b) - c)" := ⟨rfl, rfl⟩

/-- C9 (counterexample): the parse of `{"one": 1, "two": 2}` is the source
ordered pair list, but the display iterates the reference's unordered map:
`[1, 0]` is as valid an iteration order as `[0, 1]` (both are permutations
of the index range), and the two orders render different texts, so the
rendered text is not determined by the input alone. -/
theorem hash_display_order_dependent :
    parseInput 99 ("\x7b\"one\": 1, \"two\": 2\x7d") =
      some (⟨[some (Stmt.ExpressionStatement ⟨.LBRACE, "\x7b"⟩
                (some (Expr.HashLiteral ⟨.LBRACE, "\x7b"⟩ hashPairsOneTwo)))]⟩,
            drainedParser []) ∧
    List.Perm [1, 0] [0, 1] ∧
    renderHashPairsWithOrder 99 [1, 0] hashPairsOneTwo ≠
      renderHashPairsWithOrder 99 [0, 1] hashPairsOneTwo :=
  ⟨rfl, by decide, by decide⟩

/-- C9 (amended): the parser itself stores the hash pairs
deterministically, in source order, and the display is deterministic once
an enumeration order of the pairs is fixed (insertion order here): the
parse-then-render pipeline with that fixed order yields one definite
text. -/
theorem hash_display_deterministic_given_order :
    parseInput 99 ("\x7b\"one\": 1, \"two\": 2\x7d") =
      some (⟨[some (Stmt.ExpressionStatement ⟨.LBRACE, "\x7b"⟩
                (some (Expr.HashLiteral ⟨.LBRACE, "\x7b"⟩ hashPairsOneTwo)))]⟩,
            drainedParser []) ∧
    renderHashPairsWithOrder 99 [0, 1] hashPairsOneTwo = "\x7bone:1, two:2\x7d" :=
  ⟨rfl, rfl⟩

/-- C1 (counterexample): on `let x = ;` the value sub-parse yields the
absent node (first conjunct: `parseExpression` at exactly the state
`parseLetStatement` hands it returns `none`), yet `parseLetStatement`
returns a present `LetStatement` node whose value slot is absent — it does
not itself yield absent. -/
theorem absent_subparse_present_letStatement :
    parseExpression 99 LOWEST ⟨⟨.SEMICOLON, ";"⟩, ⟨.EOF, ""⟩, [], []⟩ =
      some (none, ⟨⟨.SEMICOLON, ";"⟩, ⟨.EOF, ""⟩, [], [Diag.noPrefixParseFn .SEMICOLON]⟩) ∧
    parseInput 99 ("let x = ;") =
      some (⟨[some (Stmt.LetStatement ⟨.LET, "let"⟩ (⟨.IDENT, "x"⟩, "x") none)]⟩,
            drainedParser [Diag.noPrefixParseFn .SEMICOLON]) := ⟨rfl, rfl⟩

theorem expectPeek_false_peek {t : TokenType} {p q : Parser}
    (h : expectPeek t p = (false, q)) : peekTokenIs p t = false := by
  unfold expectPeek at h
  split at h
  · cases h
  · simp_all

/-- C1 (amended): a failed value/operand sub-expression parse never makes
these constructors yield absent, and the slot is exactly the sub-parse's
result (absent when it failed, never a substituted default):
`parseReturnStatement`, `parseExpressionStatement`,
`parsePrefixExpression` and `parseInfixExpression` always return a present
node whose value/operand slot equals the value the recursive
`parseExpression` call produced, and `parseLetStatement` yields absent
only when one of its two `expectPeek` checks (identifier, `=`) fails —
when it completes with a present node, that node's value slot likewise
equals the sub-parse's result. -/
theorem constructors_keep_absent_slot :
    ∀ (fuel : Nat) (p : Parser) (r : Option Stmt) (e left : Option Expr) (q : Parser),
      (parseLetStatement (fuel+1) p = some (none, q) →
        peekTokenIs p .IDENT = false ∨ peekTokenIs p.nextToken .ASSIGN = false) ∧
      (∀ st, parseLetStatement (fuel+1) p = some (some st, q) →
        ∃ v p1,
          parseExpression fuel LOWEST p.nextToken.nextToken.nextToken = some (v, p1) ∧
          st = Stmt.LetStatement p.currToken
            (p.nextToken.currToken, p.nextToken.currToken.literal) v) ∧
      (parseReturnStatement (fuel+1) p = some (r, q) →
        ∃ v p1, parseExpression fuel LOWEST p.nextToken = some (v, p1) ∧
          r = some (Stmt.ReturnStatement p.currToken v)) ∧
      (parseExpressionStatement (fuel+1) p = some (r, q) →
        ∃ v p1, parseExpression fuel LOWEST p = some (v, p1) ∧
          r = some (Stmt.ExpressionStatement p.currToken v)) ∧
      (parsePrefixExpression (fuel+1) p = some (e, q) →
        ∃ v, parseExpression fuel PREFIX p.nextToken = some (v, q) ∧
          e = some (Expr.PrefixExpression p.currToken p.currToken.literal v)) ∧
      (parseInfixExpression (fuel+1) left p = some (e, q) →
        ∃ v, parseExpression fuel (currPrecedence p) p.nextToken = some (v, q) ∧
          e = some (Expr.InfixExpression p.currToken p.currToken.literal left v)) := by
  intro fuel p r e left q
  refine ⟨?_, ?_, ?_, ?_, ?_, ?_⟩
  · intro h
    simp only [parseLetStatement] at h
    split at h
    · next p1 heq => exact Or.inl (expectPeek_false_peek heq)
    · next p1 heq =>
      obtain ⟨hp1, _⟩ := expectPeek_true_state heq
      subst hp1
      split at h
      · next p2 heq2 => exact Or.inr (expectPeek_false_peek heq2)
      · next p2 heq2 =>
        split at h
        · cases h
        · next val p3 heq3 =>
          split at h
          · cases h
          · next p4 heq4 => simp at h
  · intro st h
    simp only [parseLetStatement] at h
    split at h
    · next p1 heq => simp at h
    · next p1 heq =>
      obtain ⟨hp1, _⟩ := expectPeek_true_state heq
      subst hp1
      split at h
      · next p2 heq2 => simp at h
      · next p2 heq2 =>
        obtain ⟨hp2, _⟩ := expectPeek_true_state heq2
        subst hp2
        split at h
        · cases h
        · next v p3 heq3 =>
          split at h
          · cases h
          · next p4 heq4 =>
            simp only [Option.some.injEq, Prod.mk.injEq] at h
            obtain ⟨hst, hq⟩ := h
            exact ⟨v, p3, heq3, hst.symm⟩
  · intro h
    simp only [parseReturnStatement] at h
    split at h
    · cases h
    · next v p1 heq =>
      split at h
      · cases h
      · next p2 heq2 =>
        cases h
        exact ⟨v, p1, heq, rfl⟩
  · intro h
    simp only [parseExpressionStatement] at h
    split at h
    · cases h
    · next v p1 heq =>
      cases h
      exact ⟨v, p1, heq, rfl⟩
  · intro h
    simp only [parsePrefixExpression] at h
    split at h
    · cases h
    · next v p1 heq =>
      cases h
      exact ⟨v, heq, rfl⟩
  · intro h
    simp only [parseInfixExpression] at h
    split at h
    · cases h
    · next v p1 heq =>
      cases h
      exact ⟨v, heq, rfl⟩

/-- Witness for `constructors_keep_absent_slot`, prefix conjunct at a
concrete state where the operand sub-parse fails: the returned node is
present and its operand slot is exactly the sub-parse's absent result. -/
theorem constructors_keep_absent_slot_witness :
    ∃ v, parseExpression 98 PREFIX (Parser.mk ⟨.EOF, ""⟩ ⟨.EOF, ""⟩ [] []) =
        some (v, Parser.mk ⟨.EOF, ""⟩ ⟨.EOF, ""⟩ [] [Diag.noPrefixParseFn .EOF]) ∧
      (some (Expr.PrefixExpression ⟨.BANG, "!"⟩ "!" none) : Option Expr) =
        some (Expr.PrefixExpression ⟨.BANG, "!"⟩ "!" v) :=
  (constructors_keep_absent_slot 98 ⟨⟨.BANG, "!"⟩, ⟨.EOF, ""⟩, [], []⟩ none
      (some (Expr.PrefixExpression ⟨.BANG, "!"⟩ "!" none)) none
      ⟨⟨.EOF, ""⟩, ⟨.EOF, ""⟩, [], [Diag.noPrefixParseFn .EOF]⟩).2.2.2.2.1 rfl

/-- C8: `expectPeek` frame contract.  On a mismatching peek it returns
failure, appends exactly one unexpected-token diagnostic naming the
expected and the actual kind, and leaves the cursor (current token, peek
token and unread stream) untouched; on a match it appends nothing and the
state advances by exactly one token. -/
theorem expectPeek_contract :
    ∀ (t : TokenType) (p : Parser),
      (peekTokenIs p t = false →
        expectPeek t p = (false, peekError t p) ∧
        (expectPeek t p).2.currToken = p.currToken ∧
        (expectPeek t p).2.peekToken = p.peekToken ∧
        (expectPeek t p).2.rest = p.rest ∧
        (expectPeek t p).2.errors = p.errors ++ [Diag.expectedNextToken t p.peekToken.typ]) ∧
      (peekTokenIs p t = true →
        expectPeek t p = (true, p.nextToken) ∧
        (expectPeek t p).2.errors = p.errors) := by
  intro t p
  constructor
  · intro h
    simp [expectPeek, h, peekError]
  · intro h
    simp [expectPeek, h, nextToken_errors]

/-- Witness for `expectPeek_contract`: both branches at concrete states —
a failing `expectPeek(ASSIGN)` with peek `INT` appends exactly the
unexpected-token diagnostic, and a matching `expectPeek(INT)` advances. -/
theorem expectPeek_contract_witness :
    (expectPeek .ASSIGN ⟨⟨.IDENT, "x"⟩, ⟨.INT, "5"⟩, [], []⟩).2.errors =
      [] ++ [Diag.expectedNextToken .ASSIGN .INT] ∧
    expectPeek .INT ⟨⟨.IDENT, "x"⟩, ⟨.INT, "5"⟩, [], []⟩ =
      (true, Parser.nextToken ⟨⟨.IDENT, "x"⟩, ⟨.INT, "5"⟩, [], []⟩) :=
  ⟨((expectPeek_contract .ASSIGN ⟨⟨.IDENT, "x"⟩, ⟨.INT, "5"⟩, [], []⟩).1 (by decide)).2.2.2.2,
   ((expectPeek_contract .INT ⟨⟨.IDENT, "x"⟩, ⟨.INT, "5"⟩, [], []⟩).2 (by decide)).1⟩

theorem noSemicolonAhead_nextToken {p : Parser} (h : noSemicolonAhead p) :
    noSemicolonAhead p.nextToken := by
  obtain ⟨h1, h2, h3⟩ := h
  unfold Parser.nextToken
  split
  · exact ⟨h2, by simp, h3⟩
  · next t ts heq =>
    refine ⟨h2, h3 t (by rw [heq]; simp), fun u hu => h3 u (by rw [heq]; simp [hu])⟩

theorem skipToSemicolonV0_none :
    ∀ (fuel : Nat) (p : Parser), noSemicolonAhead p → skipToSemicolonV0 fuel p = none := by
  intro fuel
  induction fuel with
  | zero => intro p _; rfl
  | succ fuel ih =>
    intro p h
    have hc : currTokenIs p .SEMICOLON = false := by
      simp [currTokenIs, h.1]
    simp only [skipToSemicolonV0, hc]
    exact ih p.nextToken (noSemicolonAhead_nextToken h)

/-- C2: the earlier snapshot's `parseLetStatement`
(`src/unnamed/part_000`) does not terminate on the token stream of
`let x = 5` (no trailing semicolon): its skip-to-semicolon loop never sees
a `SEMICOLON` once the lexer is exhausted, because the cursor then yields
`EOF` forever.  In the fueled embedding, no amount of fuel produces a
result.  The first conjunct checks that this token stream really is what
the lexer yields for that input. -/
theorem parseLetStatementV0_nonterminating :
    ∀ fuel : Nat,
      lexerTokens ("let x = 5") =
        some [⟨.LET, "let"⟩, ⟨.IDENT, "x"⟩, ⟨.ASSIGN, "="⟩, ⟨.INT, "5"⟩, ⟨.EOF, ""⟩] ∧
      parseLetStatementV0 fuel
        (newParser [⟨.LET, "let"⟩, ⟨.IDENT, "x"⟩, ⟨.ASSIGN, "="⟩, ⟨.INT, "5"⟩, ⟨.EOF, ""⟩]) =
        none := by
  intro fuel
  refine ⟨rfl, ?_⟩
  match fuel with
  | 0 => rfl
  | fuel+1 =>
    show parseLetStatementV0 (fuel+1)
      ⟨⟨.LET, "let"⟩, ⟨.IDENT, "x"⟩,
        [⟨.ASSIGN, "="⟩, ⟨.INT, "5"⟩, ⟨.EOF, ""⟩], []⟩ = none
    simp only [parseLetStatementV0,
      show expectPeek .IDENT
          ⟨⟨.LET, "let"⟩, ⟨.IDENT, "x"⟩,
            [⟨.ASSIGN, "="⟩, ⟨.INT, "5"⟩, ⟨.EOF, ""⟩], []⟩ =
          (true, ⟨⟨.IDENT, "x"⟩, ⟨.ASSIGN, "="⟩, [⟨.INT, "5"⟩, ⟨.EOF, ""⟩], []⟩) from rfl,
      show expectPeek .ASSIGN
          ⟨⟨.IDENT, "x"⟩, ⟨.ASSIGN, "="⟩, [⟨.INT, "5"⟩, ⟨.EOF, ""⟩], []⟩ =
          (true, ⟨⟨.ASSIGN, "="⟩, ⟨.INT, "5"⟩, [⟨.EOF, ""⟩], []⟩) from rfl,
      skipToSemicolonV0_none fuel
        ⟨⟨.ASSIGN, "="⟩, ⟨.INT, "5"⟩, [⟨.EOF, ""⟩], []⟩ (by decide)]

end Monkey
